import Mathlib

/-!
Verification of the file discovery, path resolution and categorized export
pipeline of the Categorised_Directory_Structure repository, shallowly
embedded from src/app.py and src/FileNames_Excel.py.

Modelling conventions
* Python strings are lists of characters (`PyStr`).
* The directory tree handed to os.walk is an explicit inductive value
  (`EntryList`); each regular file carries the calendar date that
  datetime.fromtimestamp(os.path.getmtime(p)).strftime of %Y-%m-%d would
  produce, or `none` when os.path.getmtime raises OSError.
* os.path.exists is a boolean oracle, os.path.normpath an abstract function
  parameter where its behaviour matters (resolve_path) and the identity
  inside get_files, whose root argument is already normalized.
* Python dicts are insertion-ordered association lists; d[k] = v is
  `dictInsert`, d[k].append(v) is `dictAppend` (KeyError = `.error ()`).
* Each exporter is described by the logical two-column row content it
  renders together with the explicit list of filesystem writes and console
  prints it performs (`RenderOut`); the third-party rendering libraries
  (openpyxl, python-docx, reportlab) are treated at the data boundary, as
  the specification prescribes.
-/

/-- Python strings, modelled as lists of characters. -/
abbrev PyStr := List Char

/-- The Windows path separator inserted by os.path.join in the source's
deployment environment (UNC paths, mapped drive letters). -/
def sep : Char := '\\'

/-- A calendar date (year, month, day): the data content of
datetime.fromtimestamp(os.path.getmtime(p)). -/
abbrev Date := Nat × Nat × Nat

/-- Decimal digits of n, zero padded on the left to two characters, as
strftime renders %m and %d. -/
def pad2 (n : Nat) : PyStr :=
  if n < 10 then '0' :: (toString n).data else (toString n).data

/-- Decimal digits of n, zero padded on the left to four characters, as
strftime renders %Y. -/
def pad4 (n : Nat) : PyStr :=
  List.replicate (4 - (toString n).data.length) '0' ++ (toString n).data

/-- strftime with format string %Y-%m-%d applied to a date. -/
def formatDate : Date → PyStr
  | (y, m, d) => pad4 y ++ '-' :: (pad2 m ++ '-' :: pad2 d)

mutual
/-- A directory tree entry: a regular file together with the date its
getmtime call reports (`none` when getmtime raises OSError), or a
subdirectory with its children in listing order. -/
inductive Entry where
  | file (name : PyStr) (mdate : Option Date)
  | dir (name : PyStr) (children : EntryList)

/-- The entries of one directory, in listing order. -/
inductive EntryList where
  | nil
  | cons (e : Entry) (rest : EntryList)
end

/-- The regular files among a directory's entries, in listing order, each
paired with its optional modification date: the `files` component of an
os.walk frame. -/
def filesOf : EntryList → List (PyStr × Option Date)
  | .nil => []
  | .cons (.file n m) rest => (n, m) :: filesOf rest
  | .cons (.dir _ _) rest => filesOf rest

mutual
/-- The os.walk frames contributed by one entry of a directory whose own
path is `root`: nothing for a regular file, and the subdirectory's frame
followed by its descendants' frames for a directory. -/
def walkEntry (root : PyStr) : Entry → List (PyStr × List (PyStr × Option Date))
  | .file _ _ => []
  | .dir n es => (root ++ sep :: n, filesOf es) :: walkChildren (root ++ sep :: n) es

/-- The os.walk frames contributed by a list of entries of the directory at
`root`, in listing order. -/
def walkChildren (root : PyStr) : EntryList → List (PyStr × List (PyStr × Option Date))
  | .nil => []
  | .cons e rest => walkEntry root e ++ walkChildren root rest
end

/-- os.walk(path) on the tree rooted at `path`, top down: each frame is the
pair of a directory's path and the files it directly contains. -/
def walk (path : PyStr) (tree : EntryList) : List (PyStr × List (PyStr × Option Date)) :=
  (path, filesOf tree) :: walkChildren path tree

/-- Python str.replace(old, new, 1): replace the leftmost occurrence of
`old` (if any) by `new`. -/
def replaceFirst : PyStr → PyStr → PyStr → PyStr
  | [], old, new => if old = [] then new else []
  | c :: rest, old, new =>
    if old.isPrefixOf (c :: rest) then new ++ (c :: rest).drop old.length
    else c :: replaceFirst rest old new

/-- Python dict assignment d[k] = v on an insertion-ordered dictionary: an
existing key keeps its position and gets the new value, a new key is
appended at the end. -/
def dictInsert {α : Type} (d : List (PyStr × α)) (k : PyStr) (v : α) : List (PyStr × α) :=
  match d with
  | [] => [(k, v)]
  | (k0, v0) :: rest => if k0 = k then (k0, v) :: rest else (k0, v0) :: dictInsert rest k v

/-- Python dict read d.get(k) on an insertion-ordered dictionary. -/
def dictLookup {α : Type} (d : List (PyStr × α)) (k : PyStr) : Option α :=
  match d with
  | [] => none
  | (k0, v0) :: rest => if k0 = k then some v0 else dictLookup rest k

/-- Python d[k].append(v) on a dictionary of lists: appends v to the list
stored under k, raising KeyError (modelled `.error ()`) when k is absent. -/
def dictAppend {α : Type} (d : List (PyStr × List α)) (k : PyStr) (v : α) :
    Except Unit (List (PyStr × List α)) :=
  match d with
  | [] => .error ()
  | (k0, vs) :: rest =>
    if k0 = k then .ok ((k0, vs ++ [v]) :: rest)
    else (dictAppend rest k v).map fun r => (k0, vs) :: r

/-- The fixed header row every exporter renders first:
('Category / File Name', 'Last Modified'). -/
def header_row : PyStr × PyStr := ("Category / File Name".data, "Last Modified".data)

/-- The DataFrame rows built by generate_excel (src/app.py lines 188-193 and
src/FileNames_Excel.py lines 133-139): for each category with a nonempty
item list, one category row with an empty second cell, then one row per file
with the name indented by three spaces and the modified string. -/
def excel_data_rows (g : List (PyStr × List (PyStr × PyStr))) : List (PyStr × PyStr) :=
  g.flatMap fun b =>
    if b.2 = [] then []
    else (b.1, ([] : PyStr)) :: b.2.map fun it => ("   ".data ++ it.1, it.2)

/-- The full logical content of the generated spreadsheet: the manually
written bold header at row 1, then the DataFrame rows from row 2 on. -/
def excel_rows (g : List (PyStr × List (PyStr × PyStr))) : List (PyStr × PyStr) :=
  header_row :: excel_data_rows g

/-- The rows of the Word table built by generate_word (src/app.py lines
99-147): header row, then per nonempty category a bold category row with an
empty second cell followed by one (name, modified) row per file. -/
def word_rows (g : List (PyStr × List (PyStr × PyStr))) : List (PyStr × PyStr) :=
  header_row :: g.flatMap fun b =>
    if b.2 = [] then [] else (b.1, ([] : PyStr)) :: b.2

/-- The rows of the PDF table built by generate_pdf (src/app.py lines
151-183): same logical shape as the Word table (the Paragraph wrappers are
presentation only). -/
def pdf_rows (g : List (PyStr × List (PyStr × PyStr))) : List (PyStr × PyStr) :=
  header_row :: g.flatMap fun b =>
    if b.2 = [] then [] else (b.1, ([] : PyStr)) :: b.2

/-- What one exporter call produces: the logical row content of the
generated artifact, the files it writes to disk as (path, row content of
the written artifact), and the console lines it prints. -/
structure RenderOut where
  rows : List (PyStr × PyStr)
  writes : List (PyStr × List (PyStr × PyStr))
  prints : List PyStr
deriving DecidableEq

namespace App

/-- The modification column of one enumerated file in src/app.py get_files:
the formatted date, or the sentinel 'Unavailable' when getmtime raised. -/
def modifiedStr : Option Date → PyStr
  | some d => formatDate d
  | none => "Unavailable".data

/-- src/app.py get_files (lines 28-55): raises ValueError when the root
path does not exist, otherwise walks the tree and emits, per file, the
tuple (name, modified-or-sentinel, full path, client-relative path), where
the client-relative path replaces the first occurrence of the resolved root
by the original user-supplied root. -/
def get_files (rootExists : Bool) (tree : EntryList) (path original_path : PyStr) :
    Except PyStr (List (PyStr × PyStr × PyStr × PyStr)) :=
  if rootExists then
    .ok ((walk path tree).flatMap fun fr =>
      fr.2.map fun nf =>
        let full_path := fr.1 ++ sep :: nf.1
        (nf.1, modifiedStr nf.2, full_path, replaceFirst full_path path original_path))
  else .error ("Base path does not exist: ".data ++ path)

/-- src/app.py resolve_path (lines 58-96). `norm` models os.path.normpath,
`pathExists` models os.path.exists, and `uncZ` is the UNC_PATH environment
value mapped to drive Z: (assumed set). The source tests the mapped drive
letters first, then the leading double separator, then falls back to a
local path. -/
def resolve_path (norm : PyStr → PyStr) (pathExists : PyStr → Bool) (uncZ : PyStr)
    (p0 : PyStr) : Except PyStr PyStr :=
  let path := norm p0
  let drive_letter := path.take 2
  if drive_letter = "Z:".data then
    let unc_path := norm (uncZ ++ path.drop 2)
    if pathExists unc_path then .ok unc_path
    else .error ("Invalid or inaccessible mapped drive path: ".data ++ unc_path)
  else if drive_letter = "Y:".data then
    let unc_path := norm ("\\\\Server\\SharedDrive".data ++ path.drop 2)
    if pathExists unc_path then .ok unc_path
    else .error ("Invalid or inaccessible mapped drive path: ".data ++ unc_path)
  else if ['\\', '\\'].isPrefixOf path then
    if pathExists path then .ok path
    else .error ("Invalid or inaccessible UNC path: ".data ++ path)
  else if pathExists path then .ok path
  else .error ("Invalid or inaccessible local path: ".data ++ path)

/-- The fixed category list, src/app.py line 258. -/
def categories : List PyStr :=
  ["CONTRACTUAL".data, "ARCHITECTURAL".data, "STRUCTURAL".data, "SERVICES".data,
   "SAFETY".data, "OTHER".data]

/-- src/app.py lines 263-277: the per-file loop that populates the
category_selection dictionary. `choose i` models the label the selectbox of
the i-th listed file returns; each iteration performs the plain dict
assignment category_selection[name] = (modified_time, category), with no
validation of the label. -/
def category_selection (items : List (PyStr × PyStr × PyStr × PyStr))
    (choose : Nat → PyStr) : List (PyStr × PyStr × PyStr) :=
  items.enum.foldl (fun d p => dictInsert d p.2.1 (p.2.2.1, choose p.1)) []

/-- src/app.py lines 286-289: categorized_data = one empty bucket per
category in canonical order, then for each (name, (modified, category)) of
the selection dictionary, in insertion order, categorized_data[category]
gets (name, modified) appended; an unrecognized category raises KeyError. -/
def categorized_data (sel : List (PyStr × PyStr × PyStr)) :
    Except Unit (List (PyStr × List (PyStr × PyStr))) :=
  sel.foldlM (fun d e => dictAppend d e.2.2 (e.1, e.2.1)) (categories.map fun c => (c, []))

/-- src/app.py generate_excel (lines 187-213): builds the spreadsheet rows
in memory and returns the buffer; no write to disk, no print. -/
def generate_excel (g : List (PyStr × List (PyStr × PyStr))) : RenderOut :=
  ⟨excel_rows g, [], []⟩

/-- src/app.py generate_word (lines 99-147): builds the document rows in
memory and returns the buffer; no write to disk, no print. -/
def generate_word (g : List (PyStr × List (PyStr × PyStr))) : RenderOut :=
  ⟨word_rows g, [], []⟩

/-- src/app.py generate_pdf (lines 151-183): builds the PDF rows in memory
and returns the buffer; no write to disk, no print. -/
def generate_pdf (g : List (PyStr × List (PyStr × PyStr))) : RenderOut :=
  ⟨pdf_rows g, [], []⟩

end App

namespace FNE

/-- src/FileNames_Excel.py get_files (lines 21-28): walks the tree and
formats each file's modification date with no existence check and no
exception handling, so the first getmtime failure propagates as OSError and
the whole enumeration aborts. -/
def get_files (tree : EntryList) (path : PyStr) :
    Except PyStr (List (PyStr × PyStr × PyStr)) :=
  ((walk path tree).flatMap fun fr => fr.2.map fun nf => (fr.1, nf)).mapM fun p =>
    match p.2.2 with
    | some d => .ok (p.2.1, formatDate d, p.1 ++ sep :: p.2.1)
    | none => .error "OSError: getmtime failed".data

/-- src/FileNames_Excel.py generate_excel (lines 131-167): same row logic
as the app.py version, but pd.ExcelWriter(output_path) writes the workbook
to disk at output_path. -/
def generate_excel (g : List (PyStr × List (PyStr × PyStr))) (output_path : PyStr) :
    RenderOut :=
  ⟨excel_rows g, [(output_path, excel_rows g)], []⟩

/-- src/FileNames_Excel.py generate_word (lines 31-72): same row logic as
the app.py version, but doc.save(output_path) writes the document to disk
and the function prints a confirmation line. -/
def generate_word (g : List (PyStr × List (PyStr × PyStr))) (output_path : PyStr) :
    RenderOut :=
  ⟨word_rows g, [(output_path, word_rows g)],
   ["Word document created at ".data ++ output_path]⟩

/-- src/FileNames_Excel.py generate_pdf (lines 75-128): same row logic as
the app.py version, but the buffer is additionally written to disk at
output_path (lines 124-125) and a confirmation line is printed (line 127). -/
def generate_pdf (g : List (PyStr × List (PyStr × PyStr))) (output_path : PyStr) :
    RenderOut :=
  ⟨pdf_rows g, [(output_path, pdf_rows g)],
   ["PDF document saved to ".data ++ output_path]⟩

end FNE

/-- Modelled from the spec's words (section 4.1): the recognized forms are
checked in the order (a) universal-naming-convention form, accepted as-is
if it exists; (b) mapped drive letter, rewritten by substituting the
configured network share and validated for existence; (c) local path,
accepted if it exists; anything else fails. Used only to compare the
specified check order with the source's resolve_path. -/
def resolve_spec (norm : PyStr → PyStr) (pathExists : PyStr → Bool) (uncZ : PyStr)
    (p0 : PyStr) : Except PyStr PyStr :=
  let path := norm p0
  if ['\\', '\\'].isPrefixOf path then
    if pathExists path then .ok path
    else .error ("Invalid or inaccessible UNC path: ".data ++ path)
  else if path.take 2 = "Z:".data then
    let unc_path := norm (uncZ ++ path.drop 2)
    if pathExists unc_path then .ok unc_path
    else .error ("Invalid or inaccessible mapped drive path: ".data ++ unc_path)
  else if path.take 2 = "Y:".data then
    let unc_path := norm ("\\\\Server\\SharedDrive".data ++ path.drop 2)
    if pathExists unc_path then .ok unc_path
    else .error ("Invalid or inaccessible mapped drive path: ".data ++ unc_path)
  else if pathExists path then .ok path
  else .error ("Invalid or inaccessible local path: ".data ++ path)

deriving instance DecidableEq for Except

/-- The key sequence of an insertion-ordered dictionary. -/
def keysOf {α : Type} (d : List (PyStr × α)) : List PyStr := d.map Prod.fst

/-- The successful effect of d[k].append(v) on a dictionary whose keys are
distinct: the bucket of k grows by v, every other bucket is unchanged. -/
def appendPure {α : Type} (d : List (PyStr × List α)) (k : PyStr) (v : α) :
    List (PyStr × List α) :=
  d.map fun b => if b.1 = k then (b.1, b.2 ++ [v]) else b

/-- The (name, modified) pairs of the selection entries assigned to
category c, in selection order: the content of the bucket of c after the
grouping loop. -/
def bucket (sel : List (PyStr × PyStr × PyStr)) (c : PyStr) : List (PyStr × PyStr) :=
  sel.filterMap fun e => if e.2.2 = c then some (e.1, e.2.1) else none

/-- The category labels of the header rows of a rendered table: the first
cells of the rows whose second cell is empty. -/
def header_labels (rows : List (PyStr × PyStr)) : List PyStr :=
  rows.filterMap fun r => if r.2 = [] then some r.1 else none

theorem formatDate_ne_nil (d : Date) : formatDate d ≠ [] := by
  obtain ⟨y, m, dd⟩ := d
  simp [formatDate, List.append_eq_nil]

theorem replaceFirst_append (old t new : PyStr) :
    replaceFirst (old ++ t) old new = new ++ t := by
  cases old with
  | nil =>
    cases t with
    | nil => simp [replaceFirst]
    | cons c r => simp [replaceFirst, List.isPrefixOf]
  | cons o os =>
    show replaceFirst (o :: (os ++ t)) (o :: os) new = new ++ t
    rw [replaceFirst]
    have hp : (o :: os).isPrefixOf (o :: (os ++ t)) = true := by
      rw [List.isPrefixOf_iff_prefix]
      exact List.prefix_append (o :: os) t
    rw [if_pos hp]
    show new ++ List.drop (o :: os).length ((o :: os) ++ t) = new ++ t
    rw [List.drop_left]

theorem dictLookup_dictInsert {α : Type} (d : List (PyStr × α)) (k n : PyStr) (v : α) :
    dictLookup (dictInsert d k v) n = if k = n then some v else dictLookup d n := by
  induction d with
  | nil =>
    by_cases h : k = n <;> simp [dictInsert, dictLookup, h]
  | cons b rest ih =>
    obtain ⟨k0, v0⟩ := b
    by_cases h0 : k0 = k
    · subst h0
      by_cases hn : k0 = n <;> simp [dictInsert, dictLookup, hn]
    · by_cases hn : k0 = n
      · subst hn
        have hne : ¬ k = k0 := fun hc => h0 hc.symm
        simp [dictInsert, dictLookup, h0, hne]
      · simp [dictInsert, dictLookup, h0, hn, ih]

theorem keysOf_dictInsert {α : Type} (d : List (PyStr × α)) (k : PyStr) (v : α) :
    keysOf (dictInsert d k v) =
      if k ∈ keysOf d then keysOf d else keysOf d ++ [k] := by
  induction d with
  | nil => simp [dictInsert, keysOf]
  | cons b rest ih =>
    obtain ⟨k0, v0⟩ := b
    show keysOf (if k0 = k then (k0, v) :: rest else (k0, v0) :: dictInsert rest k v) = _
    by_cases h0 : k0 = k
    · subst h0
      rw [if_pos rfl,
        if_pos (show k0 ∈ keysOf ((k0, v0) :: rest) from List.mem_cons_self k0 (keysOf rest))]
      rfl
    · rw [if_neg h0]
      have hk1 : keysOf ((k0, v0) :: dictInsert rest k v) = k0 :: keysOf (dictInsert rest k v) := rfl
      have hk2 : keysOf ((k0, v0) :: rest) = k0 :: keysOf rest := rfl
      rw [hk1, hk2, ih]
      have hne : ¬ k = k0 := fun hc => h0 hc.symm
      by_cases hm : k ∈ keysOf rest
      · rw [if_pos hm, if_pos (by simp [hm])]
      · rw [if_neg hm, if_neg (by simp [hne, hm]), List.cons_append]

theorem nodup_keysOf_dictInsert {α : Type} (d : List (PyStr × α)) (k : PyStr) (v : α)
    (h : (keysOf d).Nodup) : (keysOf (dictInsert d k v)).Nodup := by
  rw [keysOf_dictInsert]
  by_cases hm : k ∈ keysOf d
  · rw [if_pos hm]; exact h
  · rw [if_neg hm]
    refine List.nodup_append.mpr ⟨h, List.nodup_singleton k, ?_⟩
    intro a ha hb
    rw [List.mem_singleton] at hb
    subst hb
    exact hm ha

theorem dictAppend_ok {α : Type} (d : List (PyStr × List α)) (k : PyStr) (v : α)
    (hk : k ∈ keysOf d) (hnd : (keysOf d).Nodup) :
    dictAppend d k v = .ok (appendPure d k v) := by
  induction d with
  | nil => simp [keysOf] at hk
  | cons b rest ih =>
    obtain ⟨k0, vs⟩ := b
    have hndc : (k0 :: keysOf rest).Nodup := hnd
    have hnd0 := List.nodup_cons.mp hndc
    by_cases h0 : k0 = k
    · subst h0
      have hrest : appendPure rest k0 v = rest := by
        have h1 : rest.map (fun b => if b.1 = k0 then (b.1, b.2 ++ [v]) else b)
            = rest.map (fun b => b) := by
          apply List.map_congr_left
          intro b hb
          have hne : ¬ b.1 = k0 := by
            intro hc
            exact hnd0.1 (hc ▸ List.mem_map_of_mem Prod.fst hb)
          rw [if_neg hne]
        simpa [appendPure] using h1
      show (if k0 = k0 then Except.ok ((k0, vs ++ [v]) :: rest)
        else (dictAppend rest k0 v).map fun r => (k0, vs) :: r) = _
      rw [if_pos rfl]
      have hap : appendPure ((k0, vs) :: rest) k0 v = (k0, vs ++ [v]) :: rest := by
        show (if k0 = k0 then (k0, vs ++ [v]) else (k0, vs)) :: appendPure rest k0 v = _
        rw [if_pos rfl, hrest]
      rw [hap]
    · have hkc : k ∈ k0 :: keysOf rest := hk
      have hk' : k ∈ keysOf rest := by
        rcases List.mem_cons.mp hkc with hc | hc
        · exact absurd hc.symm h0
        · exact hc
      show (if k0 = k then Except.ok ((k0, vs ++ [v]) :: rest)
        else (dictAppend rest k v).map fun r => (k0, vs) :: r) = _
      rw [if_neg h0, ih hk' hnd0.2]
      show Except.ok ((k0, vs) :: appendPure rest k v) = _
      have hap : appendPure ((k0, vs) :: rest) k v
          = (if k0 = k then (k0, vs ++ [v]) else (k0, vs)) :: appendPure rest k v := rfl
      rw [hap, if_neg h0]

theorem dictAppend_error {α : Type} (d : List (PyStr × List α)) (k : PyStr) (v : α)
    (hk : k ∉ keysOf d) : dictAppend d k v = .error () := by
  induction d with
  | nil => rfl
  | cons b rest ih =>
    obtain ⟨k0, vs⟩ := b
    have hkc : k ∉ k0 :: keysOf rest := hk
    rw [List.mem_cons] at hkc
    push_neg at hkc
    have h0 : ¬ k0 = k := fun hc => hkc.1 hc.symm
    show (if k0 = k then Except.ok ((k0, vs ++ [v]) :: rest)
      else (dictAppend rest k v).map fun r => (k0, vs) :: r) = _
    rw [if_neg h0, ih hkc.2]
    rfl

theorem keysOf_appendPure {α : Type} (d : List (PyStr × List α)) (k : PyStr) (v : α) :
    keysOf (appendPure d k v) = keysOf d := by
  simp only [keysOf, appendPure, List.map_map]
  apply List.map_congr_left
  intro b _
  by_cases h : b.1 = k <;> simp [h]

theorem bucket_cons (e : PyStr × PyStr × PyStr) (rest : List (PyStr × PyStr × PyStr))
    (c : PyStr) :
    bucket (e :: rest) c =
      if e.2.2 = c then (e.1, e.2.1) :: bucket rest c else bucket rest c := by
  by_cases h : e.2.2 = c <;> simp [bucket, List.filterMap_cons, h]

theorem keysOf_init :
    keysOf (App.categories.map fun c => (c, ([] : List (PyStr × PyStr))))
      = App.categories := by
  decide

theorem grouping_fold_ok (sel : List (PyStr × PyStr × PyStr)) :
    ∀ acc : List (PyStr × List (PyStr × PyStr)),
      (∀ e ∈ sel, e.2.2 ∈ keysOf acc) → (keysOf acc).Nodup →
      sel.foldlM (fun d e => dictAppend d e.2.2 (e.1, e.2.1)) acc =
        .ok (acc.map fun b => (b.1, b.2 ++ bucket sel b.1)) := by
  induction sel with
  | nil =>
    intro acc _ _
    have h1 : (acc.map fun b => (b.1, b.2 ++ bucket [] b.1)) = acc := by
      have h2 : acc.map (fun b => (b.1, b.2 ++ bucket [] b.1)) = acc.map (fun b => b) := by
        apply List.map_congr_left
        intro b _
        simp [bucket]
      simpa using h2
    rw [List.foldlM_nil, h1]
    rfl
  | cons e rest ih =>
    intro acc hmem hnd
    rw [List.foldlM_cons,
      dictAppend_ok acc e.2.2 (e.1, e.2.1) (hmem e (List.mem_cons_self e rest)) hnd]
    show rest.foldlM (fun d e => dictAppend d e.2.2 (e.1, e.2.1))
      (appendPure acc e.2.2 (e.1, e.2.1)) = _
    rw [ih (appendPure acc e.2.2 (e.1, e.2.1))
      (fun x hx => by rw [keysOf_appendPure]; exact hmem x (List.mem_cons_of_mem e hx))
      (by rw [keysOf_appendPure]; exact hnd)]
    congr 1
    simp only [appendPure, List.map_map]
    apply List.map_congr_left
    intro b _
    simp only [Function.comp]
    by_cases hb : b.1 = e.2.2
    · rw [if_pos hb]
      show (b.1, (b.2 ++ [(e.1, e.2.1)]) ++ bucket rest b.1) = (b.1, b.2 ++ bucket (e :: rest) b.1)
      rw [bucket_cons, if_pos hb.symm]
      simp [List.append_assoc]
    · rw [if_neg hb]
      show (b.1, b.2 ++ bucket rest b.1) = (b.1, b.2 ++ bucket (e :: rest) b.1)
      rw [bucket_cons, if_neg (fun hc => hb hc.symm)]

theorem categorized_data_eq (sel : List (PyStr × PyStr × PyStr))
    (hcat : ∀ e ∈ sel, e.2.2 ∈ App.categories) :
    App.categorized_data sel = .ok (App.categories.map fun c => (c, bucket sel c)) := by
  unfold App.categorized_data
  rw [grouping_fold_ok sel _ (fun e he => by rw [keysOf_init]; exact hcat e he)
    (by rw [keysOf_init]; exact (by decide : App.categories.Nodup))]
  congr 1

theorem grouping_fold_error (sel : List (PyStr × PyStr × PyStr)) :
    ∀ acc : List (PyStr × List (PyStr × PyStr)),
      (keysOf acc).Nodup → (∃ e ∈ sel, e.2.2 ∉ keysOf acc) →
      sel.foldlM (fun d e => dictAppend d e.2.2 (e.1, e.2.1)) acc = .error () := by
  induction sel with
  | nil =>
    intro acc _ hex
    obtain ⟨e, he, _⟩ := hex
    exact absurd he (List.not_mem_nil e)
  | cons e rest ih =>
    intro acc hnd hex
    rw [List.foldlM_cons]
    by_cases hm : e.2.2 ∈ keysOf acc
    · rw [dictAppend_ok acc e.2.2 (e.1, e.2.1) hm hnd]
      show rest.foldlM (fun d e => dictAppend d e.2.2 (e.1, e.2.1))
        (appendPure acc e.2.2 (e.1, e.2.1)) = _
      obtain ⟨x, hx, hxout⟩ := hex
      rcases List.mem_cons.mp hx with hc | hc
      · exact absurd (hc ▸ hm) hxout
      · exact ih (appendPure acc e.2.2 (e.1, e.2.1))
          (by rw [keysOf_appendPure]; exact hnd)
          ⟨x, hc, by rw [keysOf_appendPure]; exact hxout⟩
    · rw [dictAppend_error acc e.2.2 (e.1, e.2.1) hm]
      rfl

theorem categorized_data_in_error (sel : List (PyStr × PyStr × PyStr))
    (hex : ∃ e ∈ sel, e.2.2 ∉ App.categories) :
    App.categorized_data sel = .error () := by
  unfold App.categorized_data
  obtain ⟨e, he, hout⟩ := hex
  exact grouping_fold_error sel _
    (by rw [keysOf_init]; exact (by decide : App.categories.Nodup))
    ⟨e, he, by rw [keysOf_init]; exact hout⟩

theorem categorized_data_keys (sel : List (PyStr × PyStr × PyStr))
    (g : List (PyStr × List (PyStr × PyStr)))
    (h : App.categorized_data sel = .ok g) : ∀ b ∈ g, b.1 ∈ App.categories := by
  by_cases hcat : ∀ e ∈ sel, e.2.2 ∈ App.categories
  · rw [categorized_data_eq sel hcat] at h
    obtain rfl : (App.categories.map fun c => (c, bucket sel c)) = g := by
      injection h
    intro b hb
    obtain ⟨c, hc, rfl⟩ := List.mem_map.mp hb
    exact hc
  · push_neg at hcat
    rw [categorized_data_in_error sel (by
      obtain ⟨e, he, hout⟩ := hcat
      exact ⟨e, he, hout⟩)] at h
    exact absurd h (by simp)

mutual
theorem walkEntry_root : ∀ (e : Entry) (root : PyStr),
    ∀ fr ∈ walkEntry root e, ∃ t, fr.1 = root ++ t
  | .file _ _, root, fr, h => by
    rw [walkEntry] at h
    exact absurd h (List.not_mem_nil fr)
  | .dir n es, root, fr, h => by
    rw [walkEntry] at h
    rcases List.mem_cons.mp h with h1 | h2
    · exact ⟨sep :: n, by rw [h1]⟩
    · obtain ⟨t, ht⟩ := walkChildren_root es (root ++ sep :: n) fr h2
      exact ⟨(sep :: n) ++ t, by rw [ht, List.append_assoc]⟩

theorem walkChildren_root : ∀ (l : EntryList) (root : PyStr),
    ∀ fr ∈ walkChildren root l, ∃ t, fr.1 = root ++ t
  | .nil, root, fr, h => by
    rw [walkChildren] at h
    exact absurd h (List.not_mem_nil fr)
  | .cons e rest, root, fr, h => by
    rw [walkChildren] at h
    rcases List.mem_append.mp h with h1 | h2
    · exact walkEntry_root e root fr h1
    · exact walkChildren_root rest root fr h2
end

theorem walk_root (path : PyStr) (tree : EntryList) :
    ∀ fr ∈ walk path tree, ∃ t, fr.1 = path ++ t := by
  intro fr h
  rcases List.mem_cons.mp h with h1 | h2
  · exact ⟨[], by rw [h1, List.append_nil]⟩
  · exact walkChildren_root tree path fr h2

theorem dictLookup_append {α : Type} (d1 d2 : List (PyStr × α)) (n : PyStr) :
    dictLookup (d1 ++ d2) n =
      match dictLookup d1 n with
      | some v => some v
      | none => dictLookup d2 n := by
  induction d1 with
  | nil => rfl
  | cons b rest ih =>
    obtain ⟨k0, v0⟩ := b
    by_cases h0 : k0 = n <;> simp [dictLookup, h0, ih]

theorem foldl_dictInsert_lookup (choose : Nat → PyStr)
    (l : List (Nat × (PyStr × PyStr × PyStr × PyStr))) :
    ∀ (d : List (PyStr × (PyStr × PyStr))) (n : PyStr),
      dictLookup (l.foldl (fun d p => dictInsert d p.2.1 (p.2.2.1, choose p.1)) d) n =
        match dictLookup ((l.map fun p => (p.2.1, (p.2.2.1, choose p.1))).reverse) n with
        | some v => some v
        | none => dictLookup d n := by
  induction l with
  | nil => intro d n; rfl
  | cons p rest ih =>
    intro d n
    rw [List.foldl_cons, ih]
    rw [List.map_cons, List.reverse_cons, dictLookup_append, dictLookup_dictInsert]
    rcases hrev : dictLookup ((rest.map fun p => (p.2.1, (p.2.2.1, choose p.1))).reverse) n
      with _ | v
    · rw [hrev]
      by_cases hf : p.2.1 = n <;> simp [dictLookup, hf]
    · rw [hrev]

theorem nodup_keysOf_foldl_dictInsert {α : Type} (f : α → PyStr) (g : α → PyStr × PyStr)
    (l : List α) :
    ∀ d : List (PyStr × (PyStr × PyStr)), (keysOf d).Nodup →
      (keysOf (l.foldl (fun d p => dictInsert d (f p) (g p)) d)).Nodup := by
  induction l with
  | nil => intro d hd; exact hd
  | cons p rest ih =>
    intro d hd
    rw [List.foldl_cons]
    exact ih _ (nodup_keysOf_dictInsert d (f p) (g p) hd)

theorem flatMap_skip_empty {β : Type} (g : List (PyStr × List (PyStr × PyStr)))
    (f : PyStr × List (PyStr × PyStr) → List β)
    (hf : ∀ b, b.2 = [] → f b = []) :
    g.flatMap f = (g.filter fun b => decide (¬ b.2 = [])).flatMap f := by
  induction g with
  | nil => rfl
  | cons b rest ih =>
    by_cases hb : b.2 = []
    · rw [List.flatMap_cons, hf b hb, List.nil_append, ih, List.filter_cons,
        if_neg (by simp [hb])]
    · rw [List.flatMap_cons, ih, List.filter_cons, if_pos (by simp [hb]),
        List.flatMap_cons]

theorem excel_data_rows_skip_empty (g : List (PyStr × List (PyStr × PyStr))) :
    excel_data_rows g = excel_data_rows (g.filter fun b => decide (¬ b.2 = [])) := by
  unfold excel_data_rows
  exact flatMap_skip_empty g _ (fun b hb => by rw [if_pos hb])

theorem word_rows_skip_empty (g : List (PyStr × List (PyStr × PyStr))) :
    word_rows g = word_rows (g.filter fun b => decide (¬ b.2 = [])) := by
  unfold word_rows
  rw [flatMap_skip_empty g _ (fun b hb => by rw [if_pos hb])]

theorem pdf_rows_skip_empty (g : List (PyStr × List (PyStr × PyStr))) :
    pdf_rows g = pdf_rows (g.filter fun b => decide (¬ b.2 = [])) := by
  unfold pdf_rows
  rw [flatMap_skip_empty g _ (fun b hb => by rw [if_pos hb])]

theorem header_labels_append (r1 r2 : List (PyStr × PyStr)) :
    header_labels (r1 ++ r2) = header_labels r1 ++ header_labels r2 := by
  unfold header_labels
  exact List.filterMap_append r1 r2 _

theorem header_labels_excel_section (b : PyStr × List (PyStr × PyStr))
    (hm : ∀ it ∈ b.2, ¬ it.2 = []) :
    header_labels (if b.2 = [] then []
      else (b.1, ([] : PyStr)) :: b.2.map fun it => ("   ".data ++ it.1, it.2)) =
      if b.2 = [] then [] else [b.1] := by
  by_cases hb : b.2 = []
  · rw [if_pos hb, if_pos hb]
    rfl
  · rw [if_neg hb, if_neg hb]
    unfold header_labels
    rw [List.filterMap_cons]
    have h1 : (if ((b.1, ([] : PyStr)) : PyStr × PyStr).2 = [] then
        some ((b.1, ([] : PyStr)) : PyStr × PyStr).1 else none) = some b.1 := by
      rw [if_pos rfl]
    rw [h1, List.filterMap_map]
    have h2 : List.filterMap
        ((fun r : PyStr × PyStr => if r.2 = [] then some r.1 else none) ∘
          fun it : PyStr × PyStr => ("   ".data ++ it.1, it.2)) b.2 = [] := by
      rw [List.filterMap_eq_nil_iff]
      intro it hit
      simp only [Function.comp]
      rw [if_neg (hm it hit)]
    rw [h2]

theorem header_labels_word_section (b : PyStr × List (PyStr × PyStr))
    (hm : ∀ it ∈ b.2, ¬ it.2 = []) :
    header_labels (if b.2 = [] then []
      else (b.1, ([] : PyStr)) :: b.2) =
      if b.2 = [] then [] else [b.1] := by
  by_cases hb : b.2 = []
  · rw [if_pos hb, if_pos hb]
    rfl
  · rw [if_neg hb, if_neg hb]
    unfold header_labels
    rw [List.filterMap_cons]
    have h1 : (if ((b.1, ([] : PyStr)) : PyStr × PyStr).2 = [] then
        some ((b.1, ([] : PyStr)) : PyStr × PyStr).1 else none) = some b.1 := by
      rw [if_pos rfl]
    rw [h1]
    have h2 : List.filterMap
        (fun r : PyStr × PyStr => if r.2 = [] then some r.1 else none) b.2 = [] := by
      rw [List.filterMap_eq_nil_iff]
      intro it hit
      rw [if_neg (hm it hit)]
    rw [h2]

theorem header_labels_excel_data_rows (g : List (PyStr × List (PyStr × PyStr)))
    (hm : ∀ b ∈ g, ∀ it ∈ b.2, ¬ it.2 = []) :
    header_labels (excel_data_rows g) =
      (g.filter fun b => decide (¬ b.2 = [])).map Prod.fst := by
  induction g with
  | nil => rfl
  | cons b rest ih =>
    unfold excel_data_rows
    rw [List.flatMap_cons, header_labels_append,
      header_labels_excel_section b (hm b (List.mem_cons_self b rest))]
    have ihr := ih (fun x hx => hm x (List.mem_cons_of_mem b hx))
    unfold excel_data_rows at ihr
    rw [ihr, List.filter_cons]
    by_cases hb : b.2 = []
    · rw [if_pos hb, if_neg (by simp [hb])]
      rfl
    · rw [if_neg hb, if_pos (by simp [hb]), List.map_cons]
      rfl

theorem header_labels_word_body (g : List (PyStr × List (PyStr × PyStr)))
    (hm : ∀ b ∈ g, ∀ it ∈ b.2, ¬ it.2 = []) :
    header_labels (g.flatMap fun b =>
      if b.2 = [] then [] else (b.1, ([] : PyStr)) :: b.2) =
      (g.filter fun b => decide (¬ b.2 = [])).map Prod.fst := by
  induction g with
  | nil => rfl
  | cons b rest ih =>
    rw [List.flatMap_cons, header_labels_append,
      header_labels_word_section b (hm b (List.mem_cons_self b rest))]
    rw [ih (fun x hx => hm x (List.mem_cons_of_mem b hx)), List.filter_cons]
    by_cases hb : b.2 = []
    · rw [if_pos hb, if_neg (by simp [hb])]
      rfl
    · rw [if_neg hb, if_pos (by simp [hb]), List.map_cons]
      rfl

theorem header_labels_word_rows (g : List (PyStr × List (PyStr × PyStr)))
    (hm : ∀ b ∈ g, ∀ it ∈ b.2, ¬ it.2 = []) :
    header_labels (word_rows g) =
      (g.filter fun b => decide (¬ b.2 = [])).map Prod.fst := by
  unfold word_rows
  have hhd : header_labels (header_row :: g.flatMap fun b =>
      if b.2 = [] then [] else (b.1, ([] : PyStr)) :: b.2) =
      header_labels (g.flatMap fun b =>
        if b.2 = [] then [] else (b.1, ([] : PyStr)) :: b.2) := by
    unfold header_labels header_row
    rw [List.filterMap_cons]
    rw [if_neg (by decide)]
  rw [hhd]
  exact header_labels_word_body g hm

theorem pdf_rows_eq_word_rows (g : List (PyStr × List (PyStr × PyStr))) :
    pdf_rows g = word_rows g := rfl

theorem bucket_eq_nil_iff (sel : List (PyStr × PyStr × PyStr)) (c : PyStr) :
    bucket sel c = [] ↔ ∀ e ∈ sel, ¬ e.2.2 = c := by
  unfold bucket
  rw [List.filterMap_eq_nil_iff]
  constructor
  · intro h e he hc
    have := h e he
    rw [if_pos hc] at this
    exact absurd this (by simp)
  · intro h e he
    rw [if_neg (h e he)]

theorem countP_eq_one_of_nodup_mem {l : List PyStr} (hnd : l.Nodup) {a : PyStr}
    (ha : a ∈ l) : (l.countP fun c => decide (c = a)) = 1 := by
  induction l with
  | nil => exact absurd ha (List.not_mem_nil a)
  | cons c rest ih =>
    have hnd0 := List.nodup_cons.mp hnd
    rw [List.countP_cons]
    rcases List.mem_cons.mp ha with hc | hc
    · subst hc
      rw [if_pos (by simp)]
      have hz : rest.countP (fun c => decide (c = a)) = 0 := by
        rw [List.countP_eq_zero]
        intro x hx hdec
        rw [decide_eq_true_eq] at hdec
        subst hdec
        exact hnd0.1 hx
      rw [hz]
    · have hne : ¬ c = a := by
        intro hcc
        subst hcc
        exact hnd0.1 hc
      rw [ih hnd0.2 hc, if_neg (by simpa using hne)]

theorem mem_bucket_names (sel : List (PyStr × PyStr × PyStr)) (c n : PyStr) :
    n ∈ (bucket sel c).map Prod.fst ↔ ∃ x ∈ sel, x.2.2 = c ∧ x.1 = n := by
  unfold bucket
  rw [List.mem_map]
  constructor
  · rintro ⟨p, hp, rfl⟩
    obtain ⟨x, hx, hfx⟩ := List.mem_filterMap.mp hp
    by_cases hc : x.2.2 = c
    · rw [if_pos hc] at hfx
      injection hfx with h1
      exact ⟨x, hx, hc, by rw [← h1]⟩
    · rw [if_neg hc] at hfx
      exact absurd hfx (by simp)
  · rintro ⟨x, hx, hc, rfl⟩
    exact ⟨(x.1, x.2.1), List.mem_filterMap.mpr ⟨x, hx, by rw [if_pos hc]⟩, rfl⟩

/-- C1: for every CategoryAssignment (a selection dictionary with distinct
file names) whose categories all belong to the fixed category list, the
grouping step src/app.py lines 286-289 is a partition: grouping succeeds,
each assigned entry lands in the bucket of its own category, each assigned
file name is contained in exactly one category's (name, modified) list, and
a name appears in some bucket exactly when it is an assigned name. -/
theorem grouping_is_partition (sel : List (PyStr × PyStr × PyStr))
    (hcat : ∀ e ∈ sel, e.2.2 ∈ App.categories)
    (hnd : (sel.map fun e => e.1).Nodup) :
    ∃ g, App.categorized_data sel = .ok g ∧
      (∀ e ∈ sel, (e.1, e.2.1) ∈ bucket sel e.2.2 ∧
        (g.countP fun b => decide (e.1 ∈ b.2.map Prod.fst)) = 1) ∧
      (∀ n, (∃ b ∈ g, n ∈ b.2.map Prod.fst) ↔ n ∈ sel.map fun e => e.1) := by
  refine ⟨App.categories.map fun c => (c, bucket sel c),
    categorized_data_eq sel hcat, ?_, ?_⟩
  · intro e he
    constructor
    · exact List.mem_filterMap.mpr ⟨e, he, by rw [if_pos rfl]⟩
    · rw [List.countP_map]
      have hcong : App.categories.countP
          ((fun b : PyStr × List (PyStr × PyStr) => decide (e.1 ∈ b.2.map Prod.fst)) ∘
            fun c => (c, bucket sel c)) =
          App.categories.countP (fun c => decide (c = e.2.2)) := by
        apply List.countP_congr
        intro c _
        simp only [Function.comp, decide_eq_true_eq]
        rw [mem_bucket_names]
        constructor
        · rintro ⟨x, hx, hxc, hxn⟩
          have hxe : x = e := List.inj_on_of_nodup_map hnd hx he hxn
          rw [← hxc, hxe]
        · intro hce
          subst hce
          exact ⟨e, he, rfl, rfl⟩
      rw [hcong]
      exact countP_eq_one_of_nodup_mem (by decide) (hcat e he)
  · intro n
    constructor
    · rintro ⟨b, hb, hn⟩
      obtain ⟨c, _, rfl⟩ := List.mem_map.mp hb
      obtain ⟨x, hx, _, hxn⟩ := (mem_bucket_names sel c n).mp hn
      exact List.mem_map.mpr ⟨x, hx, hxn⟩
    · intro hn
      obtain ⟨e, he, rfl⟩ := List.mem_map.mp hn
      refine ⟨(e.2.2, bucket sel e.2.2), List.mem_map.mpr ⟨e.2.2, hcat e he, rfl⟩, ?_⟩
      exact (mem_bucket_names sel e.2.2 e.1).mpr ⟨e, he, rfl, rfl⟩

/-- C1, applied at a concrete selection: the hypotheses hold and grouping is
a partition for the two-file assignment of the spec's scenario. -/
theorem grouping_is_partition_applied :
    ∃ g, App.categorized_data
        [("a.txt".data, "2024-01-01".data, "SAFETY".data),
         ("b.txt".data, "2024-01-02".data, "SERVICES".data)] = .ok g ∧
      (∀ e ∈ [("a.txt".data, "2024-01-01".data, "SAFETY".data),
              ("b.txt".data, "2024-01-02".data, "SERVICES".data)],
        (e.1, e.2.1) ∈ bucket
          [("a.txt".data, "2024-01-01".data, "SAFETY".data),
           ("b.txt".data, "2024-01-02".data, "SERVICES".data)] e.2.2 ∧
        (g.countP fun b => decide (e.1 ∈ b.2.map Prod.fst)) = 1) ∧
      (∀ n, (∃ b ∈ g, n ∈ b.2.map Prod.fst) ↔
        n ∈ List.map (fun e => e.1)
          [("a.txt".data, "2024-01-01".data, "SAFETY".data),
           ("b.txt".data, "2024-01-02".data, "SERVICES".data)]) :=
  grouping_is_partition
    [("a.txt".data, "2024-01-01".data, "SAFETY".data),
     ("b.txt".data, "2024-01-02".data, "SERVICES".data)]
    (by decide) (by decide)

/-- C4 counterexample: grouping a selection that assigns only SAFETY still
produces every category of the fixed list, the unassigned ones as empty
buckets; the empty categories are not omitted from the grouping result
itself (they are only skipped later by the exporters). -/
theorem grouping_keeps_empty_categories :
    App.categorized_data [("a.txt".data, "2024-01-01".data, "SAFETY".data)] =
      .ok [("CONTRACTUAL".data, []), ("ARCHITECTURAL".data, []),
           ("STRUCTURAL".data, []), ("SERVICES".data, []),
           ("SAFETY".data, [("a.txt".data, "2024-01-01".data)]),
           ("OTHER".data, [])] := by
  decide

/-- C4 amended: the grouping result contains every category of the fixed
list, with an empty bucket for each category that received no file; empty
categories disappear from the rendered output only because every exporter
skips buckets with an empty item list, so the rows rendered from the full
grouping equal the rows rendered from its restriction to nonempty
buckets. -/
theorem empty_categories_only_skipped_by_exporters
    (sel : List (PyStr × PyStr × PyStr))
    (hcat : ∀ e ∈ sel, e.2.2 ∈ App.categories) :
    ∃ g, App.categorized_data sel = .ok g ∧ g.map Prod.fst = App.categories ∧
      (∀ c ∈ App.categories, bucket sel c = [] →
        (c, ([] : List (PyStr × PyStr))) ∈ g) ∧
      excel_data_rows g = excel_data_rows (g.filter fun b => decide (¬ b.2 = [])) ∧
      word_rows g = word_rows (g.filter fun b => decide (¬ b.2 = [])) ∧
      pdf_rows g = pdf_rows (g.filter fun b => decide (¬ b.2 = [])) := by
  refine ⟨App.categories.map fun c => (c, bucket sel c),
    categorized_data_eq sel hcat, rfl, ?_, excel_data_rows_skip_empty _,
    word_rows_skip_empty _, pdf_rows_skip_empty _⟩
  intro c hc hb
  exact List.mem_map.mpr ⟨c, hc, by rw [hb]⟩

/-- C4 amended, applied at the one-assignment selection of the
counterexample: the hypothesis holds and the conclusion evaluates. -/
theorem empty_categories_only_skipped_applied :
    ∃ g, App.categorized_data [("a.txt".data, "2024-01-01".data, "SAFETY".data)]
        = .ok g ∧ g.map Prod.fst = App.categories ∧
      (∀ c ∈ App.categories,
        bucket [("a.txt".data, "2024-01-01".data, "SAFETY".data)] c = [] →
        (c, ([] : List (PyStr × PyStr))) ∈ g) ∧
      excel_data_rows g = excel_data_rows (g.filter fun b => decide (¬ b.2 = [])) ∧
      word_rows g = word_rows (g.filter fun b => decide (¬ b.2 = [])) ∧
      pdf_rows g = pdf_rows (g.filter fun b => decide (¬ b.2 = [])) :=
  empty_categories_only_skipped_by_exporters
    [("a.txt".data, "2024-01-01".data, "SAFETY".data)] (by decide)

/-- C5 counterexample: the assignment step src/app.py line 277 performs the
plain dict write category_selection[name] = (modified_time, category) with
no validation, so assigning the label BOGUS, which is outside the fixed
category set, succeeds and stores the label; no InvalidCategoryError (or
any error) is raised at assignment time.  The invalid label is only
rejected later, by the grouping loop, as a plain KeyError. -/
theorem assignment_accepts_unrecognized_label :
    ("BOGUS".data ∉ App.categories) ∧
    App.category_selection
        [("a.txt".data, "2024-01-01".data, "C:\\r\\a.txt".data, "Z:\\r\\a.txt".data)]
        (fun _ => "BOGUS".data) =
      [("a.txt".data, "2024-01-01".data, "BOGUS".data)] ∧
    App.categorized_data [("a.txt".data, "2024-01-01".data, "BOGUS".data)]
      = .error () := by
  refine ⟨by decide, by decide, by decide⟩

/-- C5 amended: the core performs no label validation at assignment time;
a selection containing a label outside the fixed category set makes the
grouping step fail with KeyError, and whenever grouping succeeds every
category key of the resulting GroupedData belongs to the fixed set, so an
unrecognized label indeed never reaches GroupedData. -/
theorem invalid_label_fails_at_grouping (sel : List (PyStr × PyStr × PyStr)) :
    ((∃ e ∈ sel, e.2.2 ∉ App.categories) → App.categorized_data sel = .error ()) ∧
    (∀ g, App.categorized_data sel = .ok g → ∀ b ∈ g, b.1 ∈ App.categories) :=
  ⟨fun hex => categorized_data_in_error sel hex,
   fun g h => categorized_data_keys sel g h⟩

/-- C5 amended, applied concretely: grouping the BOGUS assignment fails
with KeyError, and the SAFETY bucket key of a successful grouping belongs
to the fixed category set. -/
theorem invalid_label_fails_at_grouping_applied :
    App.categorized_data [("a.txt".data, "2024-01-01".data, "BOGUS".data)]
      = .error () ∧
    (("SAFETY".data, [("a.txt".data, "2024-01-01".data)]) :
      PyStr × List (PyStr × PyStr)).1 ∈ App.categories :=
  ⟨(invalid_label_fails_at_grouping
      [("a.txt".data, "2024-01-01".data, "BOGUS".data)]).1
      ⟨("a.txt".data, "2024-01-01".data, "BOGUS".data), by decide, by decide⟩,
   (invalid_label_fails_at_grouping
      [("a.txt".data, "2024-01-01".data, "SAFETY".data)]).2
      [("CONTRACTUAL".data, []), ("ARCHITECTURAL".data, []),
       ("STRUCTURAL".data, []), ("SERVICES".data, []),
       ("SAFETY".data, [("a.txt".data, "2024-01-01".data)]),
       ("OTHER".data, [])] (by decide)
      ("SAFETY".data, [("a.txt".data, "2024-01-01".data)]) (by decide)⟩

theorem filtered_labels (sel : List (PyStr × PyStr × PyStr)) :
    ((App.categories.map fun c => (c, bucket sel c)).filter
        fun b => decide (¬ b.2 = [])).map Prod.fst =
      App.categories.filter (fun c => decide (∃ e ∈ sel, e.2.2 = c)) := by
  rw [List.filter_map, List.map_map]
  have hfun : (Prod.fst ∘ fun c : PyStr => (c, bucket sel c)) = id := rfl
  rw [hfun, List.map_id]
  apply List.filter_congr
  intro c _
  show decide (¬ bucket sel c = []) = decide (∃ e ∈ sel, e.2.2 = c)
  rw [decide_eq_decide, bucket_eq_nil_iff]
  push_neg
  rfl

/-- C7: for every selection whose labels are all in the fixed list (and
whose modified strings are nonempty, as enumeration guarantees), the keys
of the GroupedData produced by the grouping step are exactly the canonical
category list CONTRACTUAL, ARCHITECTURAL, STRUCTURAL, SERVICES, SAFETY,
OTHER, in that order, regardless of the order of the selection entries;
and the sequence of category header rows of every exporter's output is the
canonical list restricted to the categories that received a file, so the
rendered categories also appear in canonical order. -/
theorem category_order_canonical (sel : List (PyStr × PyStr × PyStr))
    (hcat : ∀ e ∈ sel, e.2.2 ∈ App.categories)
    (hmod : ∀ e ∈ sel, ¬ e.2.1 = []) :
    ∃ g, App.categorized_data sel = .ok g ∧ g.map Prod.fst = App.categories ∧
      header_labels (excel_data_rows g) =
        App.categories.filter (fun c => decide (∃ e ∈ sel, e.2.2 = c)) ∧
      header_labels (word_rows g) =
        App.categories.filter (fun c => decide (∃ e ∈ sel, e.2.2 = c)) ∧
      header_labels (pdf_rows g) =
        App.categories.filter (fun c => decide (∃ e ∈ sel, e.2.2 = c)) := by
  have hm : ∀ b ∈ (App.categories.map fun c => (c, bucket sel c)),
      ∀ it ∈ b.2, ¬ it.2 = [] := by
    intro b hb it hit
    obtain ⟨c, _, rfl⟩ := List.mem_map.mp hb
    obtain ⟨x, hx, hfx⟩ := List.mem_filterMap.mp hit
    by_cases hc : x.2.2 = c
    · rw [if_pos hc] at hfx
      injection hfx with h1
      rw [← h1]
      exact hmod x hx
    · rw [if_neg hc] at hfx
      exact absurd hfx (by simp)
  refine ⟨App.categories.map fun c => (c, bucket sel c),
    categorized_data_eq sel hcat, rfl, ?_, ?_, ?_⟩
  · rw [header_labels_excel_data_rows _ hm, filtered_labels]
  · rw [header_labels_word_rows _ hm, filtered_labels]
  · rw [pdf_rows_eq_word_rows, header_labels_word_rows _ hm, filtered_labels]

/-- C7, applied at the spec's scenario selection (b.txt assigned SERVICES
inserted first, a.txt assigned SAFETY second): the header sequence comes
out as SERVICES then SAFETY, the canonical order, not the insertion
order. -/
theorem category_order_canonical_applied :
    ∃ g, App.categorized_data
        [("b.txt".data, "2024-01-02".data, "SERVICES".data),
         ("a.txt".data, "2024-01-01".data, "SAFETY".data)] = .ok g ∧
      g.map Prod.fst = App.categories ∧
      header_labels (excel_data_rows g) =
        App.categories.filter (fun c => decide (∃ e ∈
          [("b.txt".data, "2024-01-02".data, "SERVICES".data),
           ("a.txt".data, "2024-01-01".data, "SAFETY".data)], e.2.2 = c)) ∧
      header_labels (word_rows g) =
        App.categories.filter (fun c => decide (∃ e ∈
          [("b.txt".data, "2024-01-02".data, "SERVICES".data),
           ("a.txt".data, "2024-01-01".data, "SAFETY".data)], e.2.2 = c)) ∧
      header_labels (pdf_rows g) =
        App.categories.filter (fun c => decide (∃ e ∈
          [("b.txt".data, "2024-01-02".data, "SERVICES".data),
           ("a.txt".data, "2024-01-01".data, "SAFETY".data)], e.2.2 = c)) :=
  category_order_canonical
    [("b.txt".data, "2024-01-02".data, "SERVICES".data),
     ("a.txt".data, "2024-01-01".data, "SAFETY".data)]
    (by decide) (by decide)

/-- C2 counterexample: in src/FileNames_Excel.py get_files there is no
try/except around os.path.getmtime, so with an accessible root holding
ok.txt (readable date) and bad.txt (getmtime raises), the whole enumeration
aborts with the propagated OSError instead of emitting bad.txt with the
sentinel and continuing. -/
theorem fne_get_files_aborts_on_mtime_failure :
    FNE.get_files
        (.cons (.file "ok.txt".data (some (2024, 1, 2)))
          (.cons (.file "bad.txt".data none) .nil))
        "C:\\r".data =
      .error "OSError: getmtime failed".data := by
  rfl

/-- C2 amended: the claimed error policy holds for src/app.py get_files
(and only there): enumeration fails exactly when the root path does not
exist, and a file whose getmtime fails is still emitted, with the
'Unavailable' sentinel, while every file of the walk keeps its record (the
emitted names are exactly the walked names, in walk order); in
src/FileNames_Excel.py get_files a single getmtime failure aborts the
whole enumeration instead. -/
theorem enumeration_error_policy :
    (∀ (tree : EntryList) (path orig : PyStr),
      App.get_files false tree path orig =
        .error ("Base path does not exist: ".data ++ path)) ∧
    (∀ (tree : EntryList) (path orig : PyStr)
        (items : List (PyStr × PyStr × PyStr × PyStr)),
      App.get_files true tree path orig = .ok items →
      (items.map (fun r => r.1) =
        (walk path tree).flatMap fun fr => fr.2.map Prod.fst) ∧
      ∀ fr ∈ walk path tree, ∀ nf ∈ fr.2, nf.2 = none →
        (nf.1, "Unavailable".data, fr.1 ++ sep :: nf.1,
          replaceFirst (fr.1 ++ sep :: nf.1) path orig) ∈ items) := by
  constructor
  · intro tree path orig
    rfl
  · intro tree path orig items h
    injection h with h3
    subst h3
    constructor
    · rw [List.map_flatMap]
      have hfun : (fun fr : PyStr × List (PyStr × Option Date) =>
          List.map (fun r : PyStr × PyStr × PyStr × PyStr => r.1)
            (fr.2.map fun nf =>
              (nf.1, App.modifiedStr nf.2, fr.1 ++ sep :: nf.1,
                replaceFirst (fr.1 ++ sep :: nf.1) path orig))) =
          fun fr : PyStr × List (PyStr × Option Date) => fr.2.map Prod.fst := by
        funext fr
        rw [List.map_map]
        rfl
      rw [hfun]
    · intro fr hfr nf hnf hnone
      refine List.mem_flatMap.mpr ⟨fr, hfr, List.mem_map.mpr ⟨nf, hnf, ?_⟩⟩
      show (nf.1, App.modifiedStr nf.2, fr.1 ++ sep :: nf.1,
        replaceFirst (fr.1 ++ sep :: nf.1) path orig) = _
      rw [hnone]
      rfl

/-- C2 amended, applied concretely: a missing root fails with the
ValueError message, and on the two-file tree the bad.txt record appears
with the Unavailable sentinel in the successful enumeration. -/
theorem enumeration_error_policy_applied :
    App.get_files false EntryList.nil "C:\\r".data "Z:\\r".data =
      .error ("Base path does not exist: ".data ++ "C:\\r".data) ∧
    ("bad.txt".data, "Unavailable".data, "C:\\r\\bad.txt".data,
      "Z:\\r\\bad.txt".data) ∈
      [("ok.txt".data, "2024-01-02".data, "C:\\r\\ok.txt".data,
        "Z:\\r\\ok.txt".data),
       ("bad.txt".data, "Unavailable".data, "C:\\r\\bad.txt".data,
        "Z:\\r\\bad.txt".data)] :=
  ⟨enumeration_error_policy.1 EntryList.nil "C:\\r".data "Z:\\r".data,
   (enumeration_error_policy.2
      (.cons (.file "ok.txt".data (some (2024, 1, 2)))
        (.cons (.file "bad.txt".data none) .nil))
      "C:\\r".data "Z:\\r".data
      [("ok.txt".data, "2024-01-02".data, "C:\\r\\ok.txt".data,
        "Z:\\r\\ok.txt".data),
       ("bad.txt".data, "Unavailable".data, "C:\\r\\bad.txt".data,
        "Z:\\r\\bad.txt".data)] (by rfl)).2
      ("C:\\r".data,
        [("ok.txt".data, some (2024, 1, 2)), ("bad.txt".data, none)])
      (by decide) ("bad.txt".data, none) (by decide) rfl⟩

/-- C6: every record emitted by src/app.py get_files carries a display
path obtained from its absolute path by replacing the leading resolved
root prefix with the user-facing original root: absolute and display path
share the same suffix after their respective root prefixes. -/
theorem display_path_shares_suffix (tree : EntryList) (path orig : PyStr)
    (items : List (PyStr × PyStr × PyStr × PyStr))
    (h : App.get_files true tree path orig = .ok items) :
    ∀ r ∈ items, ∃ suffix, r.2.2.1 = path ++ suffix ∧ r.2.2.2 = orig ++ suffix := by
  injection h with h3
  subst h3
  intro r hr
  obtain ⟨fr, hfr, hr2⟩ := List.mem_flatMap.mp hr
  obtain ⟨nf, hnf, rfl⟩ := List.mem_map.mp hr2
  obtain ⟨t, ht⟩ := walk_root path tree fr hfr
  refine ⟨t ++ sep :: nf.1, ?_, ?_⟩
  · show fr.1 ++ sep :: nf.1 = path ++ (t ++ sep :: nf.1)
    rw [ht, List.append_assoc]
  · show replaceFirst (fr.1 ++ sep :: nf.1) path orig = orig ++ (t ++ sep :: nf.1)
    rw [ht, List.append_assoc, replaceFirst_append]

/-- C6, applied at a record enumerated from a subdirectory: absolute path
C:\r\d1\a.txt and display path Z:\r\d1\a.txt share the suffix \d1\a.txt
after their roots. -/
theorem display_path_shares_suffix_applied :
    ∃ suffix, "C:\\r\\d1\\a.txt".data = "C:\\r".data ++ suffix ∧
      "Z:\\r\\d1\\a.txt".data = "Z:\\r".data ++ suffix :=
  display_path_shares_suffix
    (.cons (.dir "d1".data (.cons (.file "a.txt".data (some (2024, 1, 1))) .nil)) .nil)
    "C:\\r".data "Z:\\r".data
    [("a.txt".data, "2024-01-01".data, "C:\\r\\d1\\a.txt".data,
      "Z:\\r\\d1\\a.txt".data)] (by rfl)
    ("a.txt".data, "2024-01-01".data, "C:\\r\\d1\\a.txt".data,
      "Z:\\r\\d1\\a.txt".data) (by decide)

/-- C9: the selection dictionary of src/app.py is keyed by bare file name,
so looking up a name after the selection loop returns the value of the
last-seen record with that name (the lookup over the fold of dict
assignments equals the first hit in the reversed insertion sequence), the
dictionary holds at most one entry per name, and concretely: enumerating a
root with d1\a.txt and d2\a.txt produces two records whose names collide,
the selection dictionary retains only the last-seen pair
(2024-02-02, SERVICES), and only that pair survives into grouping. -/
theorem last_assignment_wins :
    (∀ (items : List (PyStr × PyStr × PyStr × PyStr)) (choose : Nat → PyStr)
        (n : PyStr),
      dictLookup (App.category_selection items choose) n =
        match dictLookup ((items.enum.map fun p =>
            (p.2.1, (p.2.2.1, choose p.1))).reverse) n with
        | some v => some v
        | none => none) ∧
    (∀ (items : List (PyStr × PyStr × PyStr × PyStr)) (choose : Nat → PyStr),
      (keysOf (App.category_selection items choose)).Nodup) ∧
    (App.get_files true
        (.cons (.dir "d1".data (.cons (.file "a.txt".data (some (2024, 1, 1))) .nil))
          (.cons (.dir "d2".data
            (.cons (.file "a.txt".data (some (2024, 2, 2))) .nil)) .nil))
        "C:\\r".data "Z:\\r".data =
      .ok [("a.txt".data, "2024-01-01".data, "C:\\r\\d1\\a.txt".data,
             "Z:\\r\\d1\\a.txt".data),
           ("a.txt".data, "2024-02-02".data, "C:\\r\\d2\\a.txt".data,
             "Z:\\r\\d2\\a.txt".data)] ∧
     App.category_selection
        [("a.txt".data, "2024-01-01".data, "C:\\r\\d1\\a.txt".data,
           "Z:\\r\\d1\\a.txt".data),
         ("a.txt".data, "2024-02-02".data, "C:\\r\\d2\\a.txt".data,
           "Z:\\r\\d2\\a.txt".data)]
        (fun i => if i = 0 then "SAFETY".data else "SERVICES".data) =
      [("a.txt".data, "2024-02-02".data, "SERVICES".data)] ∧
     App.categorized_data [("a.txt".data, "2024-02-02".data, "SERVICES".data)] =
      .ok [("CONTRACTUAL".data, []), ("ARCHITECTURAL".data, []),
           ("STRUCTURAL".data, []),
           ("SERVICES".data, [("a.txt".data, "2024-02-02".data)]),
           ("SAFETY".data, []), ("OTHER".data, [])]) := by
  refine ⟨?_, ?_, by decide, by decide, by decide⟩
  · intro items choose n
    have h := foldl_dictInsert_lookup choose items.enum [] n
    exact h
  · intro items choose
    exact nodup_keysOf_foldl_dictInsert (fun p => p.2.1)
      (fun p => (p.2.2.1, choose p.1)) items.enum [] List.nodup_nil

theorem excel_data_rows_snd_empty_iff (g : List (PyStr × List (PyStr × PyStr)))
    (hg : ∀ b ∈ g, ∀ it ∈ b.2, ¬ it.2 = []) :
    ∀ row ∈ excel_data_rows g,
      (row.2 = [] ↔ row ∈ (g.filter fun b => decide (¬ b.2 = [])).map
        fun b => (b.1, ([] : PyStr))) := by
  intro row hrow
  obtain ⟨b, hb, hrowb⟩ := List.mem_flatMap.mp hrow
  by_cases hb2 : b.2 = []
  · rw [if_pos hb2] at hrowb
    exact absurd hrowb (List.not_mem_nil row)
  · rw [if_neg hb2] at hrowb
    rcases List.mem_cons.mp hrowb with hhd | hfile
    · subst hhd
      refine iff_of_true rfl ?_
      exact List.mem_map.mpr ⟨b, List.mem_filter.mpr ⟨hb, by simp [hb2]⟩, rfl⟩
    · obtain ⟨it, hit, rfl⟩ := List.mem_map.mp hfile
      refine iff_of_false (hg b hb it hit) ?_
      intro hmem
      obtain ⟨b1, _, heq⟩ := List.mem_map.mp hmem
      have h2 : (it.2 : PyStr) = [] := by
        have := congrArg Prod.snd heq
        exact this.symm
      exact hg b hb it hit h2

theorem word_body_snd_empty_iff (g : List (PyStr × List (PyStr × PyStr)))
    (hg : ∀ b ∈ g, ∀ it ∈ b.2, ¬ it.2 = []) :
    ∀ row ∈ g.flatMap (fun b =>
        if b.2 = [] then [] else (b.1, ([] : PyStr)) :: b.2),
      (row.2 = [] ↔ row ∈ (g.filter fun b => decide (¬ b.2 = [])).map
        fun b => (b.1, ([] : PyStr))) := by
  intro row hrow
  obtain ⟨b, hb, hrowb⟩ := List.mem_flatMap.mp hrow
  by_cases hb2 : b.2 = []
  · rw [if_pos hb2] at hrowb
    exact absurd hrowb (List.not_mem_nil row)
  · rw [if_neg hb2] at hrowb
    rcases List.mem_cons.mp hrowb with hhd | hfile
    · subst hhd
      refine iff_of_true rfl ?_
      exact List.mem_map.mpr ⟨b, List.mem_filter.mpr ⟨hb, by simp [hb2]⟩, rfl⟩
    · refine iff_of_false (hg b hb row hfile) ?_
      intro hmem
      obtain ⟨b1, _, heq⟩ := List.mem_map.mp hmem
      have h2 : (row.2 : PyStr) = [] := by
        have := congrArg Prod.snd heq
        exact this.symm
      exact hg b hb row hfile h2

theorem header_row_not_catrow (g : List (PyStr × List (PyStr × PyStr))) :
    header_row ∉ (g.filter fun b => decide (¬ b.2 = [])).map
      fun b => (b.1, ([] : PyStr)) := by
  intro hmem
  obtain ⟨b1, _, heq⟩ := List.mem_map.mp hmem
  have h2 : ([] : PyStr) = header_row.2 := congrArg Prod.snd heq
  exact absurd h2 (by decide)

/-- C10: every record emitted by src/app.py get_files has a nonempty
modified string, either a formatted %Y-%m-%d date or exactly the sentinel
'Unavailable'; consequently, for any GroupedData whose modified strings are
nonempty, in the two-column output of every exporter — the spreadsheet's
DataFrame rows and its full sheet with the manual header, the Word table
and the PDF table — a row's second cell is empty exactly when the row is a
category header row; this is the emptiness test the src/FileNames_Excel.py
spreadsheet exporter uses to decide which rows to render bold. -/
theorem modified_nonempty_and_header_rows :
    (∀ (tree : EntryList) (path orig : PyStr)
        (items : List (PyStr × PyStr × PyStr × PyStr)),
      App.get_files true tree path orig = .ok items →
      ∀ r ∈ items, ¬ r.2.1 = [] ∧
        (r.2.1 = "Unavailable".data ∨ ∃ d : Date, r.2.1 = formatDate d)) ∧
    (∀ g : List (PyStr × List (PyStr × PyStr)),
      (∀ b ∈ g, ∀ it ∈ b.2, ¬ it.2 = []) →
      ∀ row ∈ excel_data_rows g,
        (row.2 = [] ↔ row ∈ (g.filter fun b => decide (¬ b.2 = [])).map
          fun b => (b.1, ([] : PyStr)))) ∧
    (∀ g : List (PyStr × List (PyStr × PyStr)),
      (∀ b ∈ g, ∀ it ∈ b.2, ¬ it.2 = []) →
      ∀ row ∈ excel_rows g,
        (row.2 = [] ↔ row ∈ (g.filter fun b => decide (¬ b.2 = [])).map
          fun b => (b.1, ([] : PyStr)))) ∧
    (∀ g : List (PyStr × List (PyStr × PyStr)),
      (∀ b ∈ g, ∀ it ∈ b.2, ¬ it.2 = []) →
      ∀ row ∈ word_rows g,
        (row.2 = [] ↔ row ∈ (g.filter fun b => decide (¬ b.2 = [])).map
          fun b => (b.1, ([] : PyStr)))) ∧
    (∀ g : List (PyStr × List (PyStr × PyStr)),
      (∀ b ∈ g, ∀ it ∈ b.2, ¬ it.2 = []) →
      ∀ row ∈ pdf_rows g,
        (row.2 = [] ↔ row ∈ (g.filter fun b => decide (¬ b.2 = [])).map
          fun b => (b.1, ([] : PyStr)))) := by
  refine ⟨?_, ?_, ?_, ?_, ?_⟩
  · intro tree path orig items h
    injection h with h3
    subst h3
    intro r hr
    obtain ⟨fr, _, hr2⟩ := List.mem_flatMap.mp hr
    obtain ⟨nf, _, rfl⟩ := List.mem_map.mp hr2
    show ¬ App.modifiedStr nf.2 = [] ∧
      (App.modifiedStr nf.2 = "Unavailable".data ∨
        ∃ d : Date, App.modifiedStr nf.2 = formatDate d)
    rcases nf.2 with _ | d
    · exact ⟨by decide, Or.inl rfl⟩
    · exact ⟨formatDate_ne_nil d, Or.inr ⟨d, rfl⟩⟩
  · exact excel_data_rows_snd_empty_iff
  · intro g hg row hrow
    rcases List.mem_cons.mp hrow with hhd | hdata
    · subst hhd
      exact iff_of_false (by decide) (header_row_not_catrow g)
    · exact excel_data_rows_snd_empty_iff g hg row hdata
  · intro g hg row hrow
    rcases List.mem_cons.mp hrow with hhd | hbody
    · subst hhd
      exact iff_of_false (by decide) (header_row_not_catrow g)
    · exact word_body_snd_empty_iff g hg row hbody
  · intro g hg row hrow
    rw [pdf_rows_eq_word_rows] at hrow
    rcases List.mem_cons.mp hrow with hhd | hbody
    · subst hhd
      exact iff_of_false (by decide) (header_row_not_catrow g)
    · exact word_body_snd_empty_iff g hg row hbody

/-- C10, applied concretely: the sentinel record of the two-file tree has a
nonempty modified cell; in a one-category GroupedData the SAFETY header
row's second cell is empty exactly because it is a header row, both among
the spreadsheet's DataFrame rows and in the PDF table, and the Word
table's fixed top header row has a nonempty second cell and is not a
category header row. -/
theorem modified_nonempty_and_header_rows_applied :
    (¬ ("Unavailable".data : PyStr) = [] ∧
      (("Unavailable".data : PyStr) = "Unavailable".data ∨
        ∃ d : Date, ("Unavailable".data : PyStr) = formatDate d)) ∧
    ((("SAFETY".data, ([] : PyStr)) : PyStr × PyStr).2 = [] ↔
      (("SAFETY".data, ([] : PyStr)) : PyStr × PyStr) ∈
        (([("SAFETY".data, [("a.txt".data, "2024-01-01".data)])].filter
            fun b => decide (¬ b.2 = [])).map fun b => (b.1, ([] : PyStr)))) ∧
    (header_row.2 = [] ↔ header_row ∈
        (([("SAFETY".data, [("a.txt".data, "2024-01-01".data)])].filter
            fun b => decide (¬ b.2 = [])).map fun b => (b.1, ([] : PyStr)))) ∧
    ((("SAFETY".data, ([] : PyStr)) : PyStr × PyStr).2 = [] ↔
      (("SAFETY".data, ([] : PyStr)) : PyStr × PyStr) ∈
        (([("SAFETY".data, [("a.txt".data, "2024-01-01".data)])].filter
            fun b => decide (¬ b.2 = [])).map fun b => (b.1, ([] : PyStr)))) :=
  ⟨modified_nonempty_and_header_rows.1
      (.cons (.file "ok.txt".data (some (2024, 1, 2)))
        (.cons (.file "bad.txt".data none) .nil))
      "C:\\r".data "Z:\\r".data
      [("ok.txt".data, "2024-01-02".data, "C:\\r\\ok.txt".data,
        "Z:\\r\\ok.txt".data),
       ("bad.txt".data, "Unavailable".data, "C:\\r\\bad.txt".data,
        "Z:\\r\\bad.txt".data)] (by rfl)
      ("bad.txt".data, "Unavailable".data, "C:\\r\\bad.txt".data,
        "Z:\\r\\bad.txt".data) (by decide),
   modified_nonempty_and_header_rows.2.1
      [("SAFETY".data, [("a.txt".data, "2024-01-01".data)])] (by decide)
      ("SAFETY".data, ([] : PyStr)) (by decide),
   modified_nonempty_and_header_rows.2.2.2.1
      [("SAFETY".data, [("a.txt".data, "2024-01-01".data)])] (by decide)
      header_row (by decide),
   modified_nonempty_and_header_rows.2.2.2.2
      [("SAFETY".data, [("a.txt".data, "2024-01-01".data)])] (by decide)
      ("SAFETY".data, ([] : PyStr)) (by decide)⟩

theorem take2_drive_not_unc {path : PyStr}
    (h : path.take 2 = "Z:".data ∨ path.take 2 = "Y:".data) :
    ['\\', '\\'].isPrefixOf path = false := by
  rcases path with _ | ⟨c, _ | ⟨c2, t⟩⟩
  · rcases h with h | h <;> simp [List.take] at h
  · rcases h with h | h <;> simp [List.take] at h
  · have hsplit : (c = 'Z' ∨ c = 'Y') ∧ c2 = ':' := by
      rcases h with h | h <;> simp [List.take] at h
      · exact ⟨Or.inl h.1, h.2⟩
      · exact ⟨Or.inr h.1, h.2⟩
    rcases hsplit.1 with hc | hc <;> subst hc <;> rfl

theorem take2_of_double_sep {path : PyStr}
    (h : ['\\', '\\'].isPrefixOf path = true) : path.take 2 = ['\\', '\\'] := by
  rcases path with _ | ⟨c, _ | ⟨c2, t⟩⟩
  · simp [List.isPrefixOf] at h
  · simp [List.isPrefixOf] at h
  · simp [List.isPrefixOf] at h
    obtain ⟨h1, h2⟩ := h
    subst h1
    subst h2
    rfl

/-- C3: on every input the source's resolve_path agrees with the
specification's check order (universal-naming-convention form first, then
the mapped drive letters Z: and Y:, then a local path): the source tests
the mapped drive letters first, but a path can never satisfy both the
drive letter test and the leading double separator test, so the two
orders coincide; moreover any input that matches no recognized form and
does not exist as a local path (such as Q:\x) fails with the local-path
ValueError, and a mapped drive input whose rewritten share path does not
exist fails with the mapped-drive ValueError. -/
theorem resolve_path_form_order :
    (∀ (norm : PyStr → PyStr) (pathExists : PyStr → Bool) (uncZ p : PyStr),
      App.resolve_path norm pathExists uncZ p = resolve_spec norm pathExists uncZ p) ∧
    (∀ (norm : PyStr → PyStr) (pathExists : PyStr → Bool) (uncZ p : PyStr),
      ['\\', '\\'].isPrefixOf (norm p) = false →
      ¬ (norm p).take 2 = "Z:".data → ¬ (norm p).take 2 = "Y:".data →
      pathExists (norm p) = false →
      App.resolve_path norm pathExists uncZ p =
        .error ("Invalid or inaccessible local path: ".data ++ norm p)) ∧
    (∀ (norm : PyStr → PyStr) (pathExists : PyStr → Bool) (uncZ p : PyStr),
      (norm p).take 2 = "Z:".data →
      pathExists (norm (uncZ ++ (norm p).drop 2)) = false →
      App.resolve_path norm pathExists uncZ p =
        .error ("Invalid or inaccessible mapped drive path: ".data ++
          norm (uncZ ++ (norm p).drop 2))) := by
  refine ⟨?_, ?_, ?_⟩
  · intro norm pathExists uncZ p
    by_cases hZ : (norm p).take 2 = "Z:".data
    · have hpre := take2_drive_not_unc (Or.inl hZ)
      simp [App.resolve_path, resolve_spec, hZ, hpre]
    · by_cases hY : (norm p).take 2 = "Y:".data
      · have hpre := take2_drive_not_unc (Or.inr hY)
        simp [App.resolve_path, resolve_spec, hZ, hY, hpre]
      · simp [App.resolve_path, resolve_spec, hZ, hY]
  · intro norm pathExists uncZ p hpre hZ hY hex
    simp [App.resolve_path, hZ, hY, hpre, hex]
  · intro norm pathExists uncZ p hZ hex
    simp [App.resolve_path, hZ, hex]

/-- C3, applied at the spec's scenario: with identity normalization and a
filesystem on which nothing exists, the unmapped drive input Q:\x fails
path resolution with the local-path ValueError. -/
theorem resolve_path_form_order_applied :
    App.resolve_path (fun s => s) (fun _ => false) "\\\\srv\\fs1".data "Q:\\x".data =
      .error ("Invalid or inaccessible local path: ".data ++ "Q:\\x".data) :=
  resolve_path_form_order.2.1 (fun s => s) (fun _ => false) "\\\\srv\\fs1".data
    "Q:\\x".data (by decide) (by decide) (by decide) rfl

/-- C8 counterexample: the PDF exporter of src/FileNames_Excel.py is not
free of side effects beyond the returned buffer: besides building the
buffer it writes the artifact to output_path (lines 124-125) and prints a
confirmation line (line 127). -/
theorem fne_pdf_exporter_writes_file :
    (FNE.generate_pdf [("SAFETY".data, [("a.txt".data, "2024-01-01".data)])]
      "categorized_files.pdf".data).writes ≠ [] ∧
    (FNE.generate_pdf [("SAFETY".data, [("a.txt".data, "2024-01-01".data)])]
      "categorized_files.pdf".data).prints ≠ [] := by
  exact ⟨by decide, by decide⟩

/-- C8 amended: the three src/app.py exporters perform no filesystem
writes and no prints (their only product is the returned buffer), their
logical row content is a function of the GroupedData alone, and the
src/FileNames_Excel.py exporters render exactly the same logical rows
while additionally writing that content to their output path. -/
theorem exporter_effects_and_rows
    (g : List (PyStr × List (PyStr × PyStr))) (out : PyStr) :
    (App.generate_excel g).writes = [] ∧ (App.generate_excel g).prints = [] ∧
    (App.generate_word g).writes = [] ∧ (App.generate_word g).prints = [] ∧
    (App.generate_pdf g).writes = [] ∧ (App.generate_pdf g).prints = [] ∧
    (App.generate_excel g).rows = excel_rows g ∧
    (App.generate_word g).rows = word_rows g ∧
    (App.generate_pdf g).rows = pdf_rows g ∧
    (FNE.generate_excel g out).rows = (App.generate_excel g).rows ∧
    (FNE.generate_word g out).rows = (App.generate_word g).rows ∧
    (FNE.generate_pdf g out).rows = (App.generate_pdf g).rows ∧
    (FNE.generate_excel g out).writes = [(out, excel_rows g)] ∧
    (FNE.generate_word g out).writes = [(out, word_rows g)] ∧
    (FNE.generate_pdf g out).writes = [(out, pdf_rows g)] :=
  ⟨rfl, rfl, rfl, rfl, rfl, rfl, rfl, rfl, rfl, rfl, rfl, rfl, rfl, rfl, rfl⟩
